import Mathlib

/-!
# Verification of the MicroPython OTA Updater

A shallow embedding of `src/main/ota_updater.py` (classes `OTAUpdater`,
`Response`, `HttpClient`) together with proofs of the specification's
claims about it.  Strings stand for Python `str`/`bytes` values; the
filesystem is modelled as finite association structures; network and
filesystem effects are modelled as explicit traces of operations.
-/

namespace OTA

/-! ## Python string primitives

Python's `>` on strings is lexicographic comparison by code point;
`str.replace(old, new)` replaces every non-overlapping occurrence left
to right; `in` is substring membership.  We embed these over `List Char`.
-/

/-- Python lexicographic `<` on strings (by code point), over char lists. -/
def pyLt : List Char → List Char → Bool
  | [], [] => false
  | [], _ :: _ => true
  | _ :: _, [] => false
  | a :: as, b :: bs =>
    if a < b then true
    else if b < a then false
    else pyLt as bs

/-- `isPrefix pat s`: `pat` is a prefix of `s`. -/
def isPrefix : List Char → List Char → Bool
  | [], _ => true
  | _ :: _, [] => false
  | a :: as, b :: bs => a = b && isPrefix as bs

/-- `hasSubstr s pat`: Python `pat in s` — `pat` occurs somewhere in `s`. -/
def hasSubstr : List Char → List Char → Bool
  | s, pat =>
    isPrefix pat s ||
      match s with
      | [] => false
      | _ :: t => hasSubstr t pat

/-- Worker for `pyReplaceDel`, structurally recursive on a fuel argument
(one unit of fuel per character consumed, so `s.length` always
suffices). -/
def pyReplaceDelF (pat : List Char) : Nat → List Char → List Char
  | _, [] => []
  | 0, s => s
  | fuel + 1, c :: rest =>
    if pat ≠ [] ∧ isPrefix pat (c :: rest) = true then
      pyReplaceDelF pat fuel (List.drop (pat.length - 1) rest)
    else
      c :: pyReplaceDelF pat fuel rest

/-- Python `s.replace(pat, '')` for a non-empty `pat`: delete every
non-overlapping occurrence of `pat` in `s`, scanning left to right.
(For empty `pat` Python interleaves the replacement; the source only ever
uses patterns ending in `'/'`, which are non-empty, and deleting an empty
pattern is the identity, which this definition also returns.) -/
def pyReplaceDel (pat s : List Char) : List Char :=
  pyReplaceDelF pat s.length s

/-! ## Update decision (`download_updates_if_available`, lines 89–92)

`current_version` and `latest_version` are `None` or a string; Python's
`not s` on a string is `s == ''`.  The code is
`if not latest_version: return False` followed by
`if (not current_version) or (latest_version > current_version)`.
-/

/-- The decision taken by `download_updates_if_available`: `true` iff the
code enters the `Updating...` branch. -/
def shouldUpdate (current_version latest_version : Option String) : Bool :=
  match latest_version with
  | none => false
  | some lv =>
    if lv = "" then false
    else
      match current_version with
      | none => true
      | some cv => cv = "" || pyLt cv.data lv.data

/-! ## `get_latest_version` (lines 141–149)

The parsed JSON object of the latest-release response is modelled as an
association list from field names to (string) values; Python's
`'tag_name' in d` is key membership and `d['tag_name']` is the lookup,
which in CPython returns the most recently inserted binding — for a
parsed JSON object, the unique one.  We require no-duplicate keys, as a
JSON parse produces. -/

/-- `OTAUpdater.get_latest_version`, given the parsed JSON object of the
`/releases/latest` response. -/
def get_latest_version (latest_release : List (String × String)) : Option String :=
  if ¬ ("tag_name" ∈ latest_release.map Prod.fst) then none
  else latest_release.lookup "tag_name"

/-! ## Filesystem model for `apply_pending_updates_if_available` and `rmtree`

An `Entry` is a file with contents or a directory with named children.
The state `apply_pending_updates_if_available` acts on is the listing of
the module directory: an association list from names to entries
(containing, possibly, the live tree `main_dir` and the staging tree
`'next'`). -/

/-- A filesystem object: a file with byte contents, or a directory with
a listing of named children. -/
inductive Entry where
  | file (contents : String) : Entry
  | dir (children : List (String × Entry)) : Entry

/-- The listing of one directory: names paired with entries. -/
abbrev Listing := List (String × Entry)

/-- The `st_mode` type code reported by `os.ilistdir`: `0x4000` for
directories, `0x8000` for regular files (comment at line 124). -/
def entryCode : Entry → Nat
  | .dir _ => 0x4000
  | .file _ => 0x8000

/-- Names present in a listing (`os.listdir`). -/
def listdir (l : Listing) : List String := l.map Prod.fst

/-- Remove every binding of `name` from a listing (the effect of
`rmtree(dir/name)` on the parent's listing). -/
def removeKey : Listing → String → Listing
  | [], _ => []
  | (a, b) :: t, name =>
    if a = name then removeKey t name else (a, b) :: removeKey t name

/-- `OTAUpdater.get_version` (lines 131–139) applied to a directory whose
listing is `l`: the contents of the `version_file_name` file if present,
else `None`.  (The code opens and reads the file after the membership
test.) -/
def get_version (l : Listing) (version_file_name : String := ".version") :
    Option String :=
  if version_file_name ∈ listdir l then
    match l.lookup version_file_name with
    | some (.file v) => some v
    | _ => none
  else none

/-- `os.rename(src, dst)` at the level of one directory's listing, with
`dst` known absent (the code removes the live tree first): move the
binding of `src` to `dst`. -/
def renameEntry (l : Listing) (src dst : String) : Listing :=
  match l.lookup src with
  | some e => (dst, e) :: removeKey l src
  | none => l

/-- `OTAUpdater.apply_pending_updates_if_available` (lines 105–119) as a
transformer of the module directory's listing.  `main_dir` is the
configured live-tree name.  The code: if `'next'` is present and its
listing contains `'.version'`, remove the live tree (if present) and
rename `'next'` to `main_dir`; if `'next'` is present without the marker,
recursively delete it; otherwise do nothing. -/
def apply_pending_updates_if_available (main_dir : String) (l : Listing) :
    Listing :=
  if "next" ∈ listdir l then
    match l.lookup "next" with
    | some (.dir next_children) =>
      if ".version" ∈ listdir next_children then
        let l1 := if main_dir ∈ listdir l then removeKey l main_dir else l
        renameEntry l1 "next" main_dir
      else
        removeKey l "next"
    | _ => l
  else l

/-! ## `rmtree` (lines 121–129)

`rmtree` walks `os.ilistdir(directory)`; each entry carries a type code
(`0x4000` directory, `0x8000` file); directories are recursed into,
files removed with `os.remove`, and finally the emptied directory is
removed with `os.rmdir`.  We embed it as a trace of removal operations
computed from the in-memory picture of the tree. -/

/-- A removal operation issued by `rmtree`. -/
inductive FsOp where
  | remove (path : String) : FsOp
  | rmdir (path : String) : FsOp
deriving DecidableEq, Repr

/-- The path an `FsOp` acts on. -/
def FsOp.target : FsOp → String
  | .remove p => p
  | .rmdir p => p

/-- The children of an entry as `os.ilistdir` would offer them (a file
has none). -/
def childrenOf : Entry → List (String × Entry)
  | .dir cs => cs
  | .file _ => []

mutual

/-- `OTAUpdater.rmtree directory` on a directory whose listing is
`children`: the sequence of `os.remove`/`os.rmdir` calls it issues. -/
def rmtree (directory : String) (children : List (String × Entry)) :
    List FsOp :=
  rmtreeGo directory children ++ [FsOp.rmdir directory]
termination_by sizeOf children + 1

/-- The `for entry in os.ilistdir(directory)` loop body of `rmtree`:
`is_dir = (entry[1] == 0x4000)`; recurse on directories, `os.remove`
files. -/
def rmtreeGo (directory : String) : List (String × Entry) → List FsOp
  | [] => []
  | (name, e) :: rest =>
    (if entryCode e = 0x4000 then
        rmtree (directory ++ "/" ++ name) (childrenOf e)
      else
        [FsOp.remove (directory ++ "/" ++ name)]) ++ rmtreeGo directory rest
termination_by l => sizeOf l
decreasing_by
  · cases e <;> simp [childrenOf] <;> try omega
  · simp
    try omega

end

mutual

/-- All paths inside the tree rooted at `directory` (whose listing is
`children`), the root included. -/
def subPaths (directory : String) (children : List (String × Entry)) :
    List String :=
  subPathsGo directory children ++ [directory]
termination_by sizeOf children + 1

/-- Paths of the descendants contributed by each child of `directory`. -/
def subPathsGo (directory : String) : List (String × Entry) → List String
  | [] => []
  | (name, e) :: rest =>
    (match e with
      | .dir cs => subPaths (directory ++ "/" ++ name) cs
      | .file _ => [directory ++ "/" ++ name]) ++ subPathsGo directory rest
termination_by l => sizeOf l
decreasing_by
  · simp
    try omega
  · simp
    try omega

end

/-- Apply a removal trace to a store of existing paths: each operation
deletes its target. -/
def applyOps (store : List String) (ops : List FsOp) : List String :=
  ops.foldl (fun st op => st.filter (fun p => p ≠ op.target)) store

/-- `Reaches d cs q qs`: the directory at path `q` with listing `qs` is
a (reflexive-transitive) subdirectory of the directory at path `d` with
listing `cs`. -/
inductive Reaches : String → List (String × Entry) → String → List (String × Entry) → Prop where
  | refl (d : String) (cs : List (String × Entry)) : Reaches d cs d cs
  | step {d cs q qs} (name : String) (sub : List (String × Entry)) :
      (name, Entry.dir sub) ∈ cs →
      Reaches (d ++ "/" ++ name) sub q qs →
      Reaches d cs q qs

/-! ## Staging paths (`get_module_and_path`, `download_all_files`)

`download_all_files` (lines 151–164) computes a local path for a remote
entry as `get_module_and_path('next/' + file['path'].replace(main_dir + '/', ''))`
— a replace-all, not a prefix strip. -/

/-- `OTAUpdater.get_module_and_path` (lines 178–180). -/
def get_module_and_path (module path : String) : String :=
  if module ≠ "" then module ++ "/" ++ path else path

/-- The local staging path `download_all_files` computes for a remote
entry with path `p`. -/
def stagingPath (module main_dir p : String) : String :=
  get_module_and_path module
    ("next/" ++ String.mk (pyReplaceDel (main_dir ++ "/").data p.data))

/-! ## The download trace (`download_updates_if_available`, lines 92–102)

The remote content listing is modelled as a tree of items: the listing
fetched for a directory URL is the node's child list (the remote API is
deterministic per URL, so the tree determines every re-fetch the code
performs).  The staging-phase filesystem writes are collected as a
trace. -/

/-- A remote content entry: `type == 'file'` with its path and download
contents, or `type == 'dir'` with its path and the listing obtained by
the recursive fetch. -/
inductive RemoteItem where
  | rfile (path : String) (contents : String) : RemoteItem
  | rdir (name : String) (path : String) (children : List RemoteItem) : RemoteItem

/-- A staging-phase filesystem write. -/
inductive DlOp where
  | mkdir (path : String) : DlOp
  | writeFile (path : String) (contents : String) : DlOp
deriving DecidableEq, Repr

/-- `OTAUpdater.download_all_files` as a trace of writes: files are
downloaded to their staging path; directories are created and recursed
into depth-first, in listing order. -/
def download_all_files (module main_dir : String) : List RemoteItem → List DlOp
  | [] => []
  | .rfile p c :: rest =>
    DlOp.writeFile (stagingPath module main_dir p) c ::
      download_all_files module main_dir rest
  | .rdir _ p children :: rest =>
    (DlOp.mkdir (stagingPath module main_dir p) ::
      download_all_files module main_dir children) ++
      download_all_files module main_dir rest

/-- The staging-phase write trace of `download_updates_if_available`
once the update branch is taken (lines 93–100): create the module
directory when missing, create `next`, download everything, then write
the `next/.version` marker with the latest version. -/
def download_updates_trace (module main_dir : String) (module_missing : Bool)
    (items : List RemoteItem) (latest_version : String) : List DlOp :=
  (if module_missing then [DlOp.mkdir module] else []) ++
    DlOp.mkdir (get_module_and_path module "next") ::
    download_all_files module main_dir items ++
    [DlOp.writeFile (get_module_and_path module "next/.version") latest_version]

/-- Paths written by `writeFile` operations of a trace (the downloads and
the marker; `mkdir` creates no file). -/
def writePaths : List DlOp → List String
  | [] => []
  | .writeFile p _ :: rest => p :: writePaths rest
  | .mkdir _ :: rest => writePaths rest

/-! ## Response-header parsing (`HttpClient.request`, lines 279–295)

After the status line, the code reads header lines one at a time until
an empty read or a bare `'\r\n'`; a `Transfer-Encoding:` line containing
`chunked` raises `ValueError`; a `Location:` line with a status outside
`[200, 299]` raises `NotImplementedError`. -/

/-- The two header-parsing rejections of `HttpClient.request`. -/
inductive HttpError where
  | unsupportedEncoding (line : String) : HttpError
  | unsupportedRedirect : HttpError
deriving DecidableEq, Repr

/-- A header line on which the loop stops normally: `readline` returned
`b''` (connection exhausted) or the bare `b'\r\n'` that ends the header
block. -/
def isTerminator (l : String) : Bool := l = "" || l = "\r\n"

/-- The header-reading loop of `HttpClient.request` (lines 286–295),
over the status code and the remaining lines the socket would yield
(each line as returned by `readline`, terminator included; an exhausted
list models `readline` returning `b''`). -/
def parseHeaders (status : Int) : List String → Except HttpError Unit
  | [] => .ok ()
  | l :: rest =>
    if isTerminator l then .ok ()
    else if isPrefix "Transfer-Encoding:".data l.data then
      if hasSubstr l.data "chunked".data then .error (.unsupportedEncoding l)
      else parseHeaders status rest
    else if isPrefix "Location:".data l.data &&
        ! decide (200 ≤ status ∧ status ≤ 299) then
      .error .unsupportedRedirect
    else parseHeaders status rest

/-- A header line that makes `request` raise, given the response status:
a chunked `Transfer-Encoding` declaration, or a `Location` header on a
non-2xx response. -/
def offendingLine (status : Int) (l : String) : Bool :=
  (isPrefix "Transfer-Encoding:".data l.data &&
      hasSubstr l.data "chunked".data) ||
    (isPrefix "Location:".data l.data &&
      ! decide (200 ≤ status ∧ status ≤ 299))

/-! ## Request emission (`HttpClient.request`, lines 254–277)

Every `s.write(...)` of the request-writing phase, in program order.
`headers` is the caller's header dict, modelled as an association list
in iteration order; `json` is modelled by the serialized form
`ujson.dumps(json)` it is immediately converted to (the code asserts
`data is None` in that case, so `data` and `jsonData` are not both
present). -/

/-- The chunks `HttpClient.request` writes to the socket, in order. -/
def requestWrites (method path host : String)
    (headers : List (String × String)) (jsonData data0 : Option String) :
    List String :=
  let data : Option String := match jsonData with
    | some j => some j
    | none => data0
  [method ++ " /" ++ path ++ " HTTP/1.0\r\n"] ++
    (if "Host" ∈ headers.map Prod.fst then [] else ["Host: " ++ host ++ "\r\n"]) ++
    (headers.flatMap fun kv => [kv.1, ": ", kv.2, "\r\n"]) ++
    ["User-Agent", ": ", "MicroPython OTAUpdater", "\r\n"] ++
    (if jsonData.isSome then ["Content-Type: application/json\r\n"] else []) ++
    (match data with
      | some d => if d ≠ "" then ["Content-Length: " ++ toString d.length ++ "\r\n"] else []
      | none => []) ++
    ["\r\n"] ++
    (match data with
      | some d => if d ≠ "" then [d] else []
      | none => [])

/-! ## Socket lifetime (`HttpClient.request` lines 247–303, `Response`)

The underlying socket is modelled by a counter of the `close()` calls
that actually reach it; a `Response` holds `raw : Option Unit` (`some`
while it owns the open socket) and the `_cached` body. -/

/-- The state of a `Response` object. -/
structure RespState where
  raw : Option Unit
  cached : Option String

/-- A freshly constructed `Response(f)` for an open socket. -/
def respInit : RespState := ⟨some (), none⟩

/-- `Response.close` (lines 198–202): closes the socket only when still
owned, then drops both references.  Returns the new state and close
count. -/
def respClose (r : RespState) (n : Nat) : RespState × Nat :=
  match r.raw with
  | some _ => (⟨none, none⟩, n + 1)
  | none => (⟨none, none⟩, n)

/-- `Response.content` (lines 204–212): returns the cache when present;
otherwise reads the body (outcome supplied as `readResult`), closing the
socket in the `finally` whether or not the read succeeded.  Reading with
neither a cache nor a socket fails without touching the transport. -/
def respContent (r : RespState) (n : Nat) (readResult : Except Unit String) :
    RespState × Nat × Except Unit String :=
  match r.cached with
  | some c => (r, n, .ok c)
  | none =>
    match r.raw with
    | none => (r, n, .error ())
    | some _ =>
      match readResult with
      | .ok bytes => (⟨none, some bytes⟩, n + 1, .ok bytes)
      | .error _ => (⟨none, none⟩, n + 1, .error ())

/-- How the `try` block of `HttpClient.request` (lines 248–295) can
fail: an `OSError` from the socket operations, or one of the two
header-parsing rejections, raised as `ValueError` (chunked) and
`NotImplementedError` (redirect). -/
inductive ReqFailure where
  | osError : ReqFailure
  | headerRejection (e : HttpError) : ReqFailure
deriving DecidableEq, Repr

/-- The connection phase of `HttpClient.request` (lines 247–303): the
socket is created (close count `0`).  The `except OSError` clause
(lines 296–298) closes the socket and re-raises — but it catches only
`OSError`: the chunked/redirect rejections are a `ValueError` and a
`NotImplementedError`, which propagate out of `request` with the socket
still open (and never handed to a `Response`).  Success hands the open
socket to a fresh `Response`. -/
def requestConn (outcome : Except ReqFailure Unit) :
    Except ReqFailure RespState × Nat :=
  match outcome with
  | .error .osError => (.error .osError, 1)
  | .error (.headerRejection e) => (.error (.headerRejection e), 0)
  | .ok () => (.ok respInit, 0)

/-- `k` successive `Response.close()` calls. -/
def iterClose : Nat → RespState × Nat → RespState × Nat
  | 0, rn => rn
  | k + 1, (r, n) =>
    let rn := respClose r n
    iterClose k rn

/-- One complete client-side use of `HttpClient.request`, per the code
paths the spec enumerates: the request fails (with a failure of the
given kind); or it succeeds and the body is read (successfully or not)
and then `close()` is called `k` more times; or it succeeds and
`close()` is called `k` times. -/
inductive Usage where
  | requestFails (f : ReqFailure) : Usage
  | readThenCloses (readOk : Bool) (k : Nat) : Usage
  | closesOnly (k : Nat) : Usage
deriving DecidableEq, Repr

/-- The number of close calls that reach the underlying socket over a
complete usage path. -/
def socketCloses : Usage → Nat
  | .requestFails f => (requestConn (.error f)).2
  | .readThenCloses readOk k =>
    match requestConn (.ok ()) with
    | (.ok r, n) =>
      let (r', n', _) := respContent r n (if readOk then .ok "body" else .error ())
      (iterClose k (r', n')).2
    | (.error _, n) => n
  | .closesOnly k => (iterClose k (respInit, 0)).2

/-! ## Order lemmas: Python string `<` agrees with Lean's `String` order -/

theorem pyLt_iff_lex :
    ∀ as bs : List Char, pyLt as bs = true ↔ List.Lex (· < ·) as bs
  | [], [] => ⟨fun h => by simp [pyLt] at h, fun h => by cases h⟩
  | [], _ :: _ => ⟨fun _ => List.Lex.nil, fun _ => rfl⟩
  | _ :: _, [] => ⟨fun h => by simp [pyLt] at h, fun h => by cases h⟩
  | a :: as, b :: bs => by
    by_cases hab : a < b
    · simp only [pyLt, hab, if_true, true_iff]
      exact List.Lex.rel hab
    · by_cases hba : b < a
      · rw [show pyLt (a :: as) (b :: bs) = false from by
            simp [pyLt, hab, hba]]
        simp only [Bool.false_eq_true, false_iff]
        intro h
        cases h with
        | rel h => exact hab h
        | cons h => exact lt_irrefl a hba
      · have heq : a = b := le_antisymm (not_lt.mp hba) (not_lt.mp hab)
        subst heq
        rw [show pyLt (a :: as) (a :: bs) = pyLt as bs from by
            simp [pyLt]]
        rw [pyLt_iff_lex as bs]
        exact (List.Lex.cons_iff (r := (· < ·))).symm

/-- Python's `>` on strings is Lean's `String` order. -/
theorem pyLt_iff_lt (a b : String) : pyLt a.data b.data = true ↔ a < b := by
  rw [String.lt_iff_toList_lt]
  exact pyLt_iff_lex a.data b.data

/-! ## Association-list lookup helpers -/

theorem beq_false_of_ne {a b : String} (h : a ≠ b) : (a == b) = false := by
  simp [h]

theorem lookup_eq_some_mem {β : Type} :
    ∀ (l : List (String × β)) (k : String) (v : β),
      l.lookup k = some v → k ∈ l.map Prod.fst
  | [], _, _, h => by simp [List.lookup] at h
  | (a, b) :: t, k, v, h => by
    simp only [List.lookup] at h
    by_cases hk : k = a
    · simp [hk]
    · rw [show (k == a) = false from by simp [hk]] at h
      simp only [List.map_cons, List.mem_cons]
      exact Or.inr (lookup_eq_some_mem t k v h)

theorem mem_exists_lookup {β : Type} :
    ∀ (l : List (String × β)) (k : String),
      k ∈ l.map Prod.fst → ∃ v, l.lookup k = some v
  | [], _, h => by simp at h
  | (a, b) :: t, k, h => by
    simp only [List.lookup]
    by_cases hk : k = a
    · rw [show (k == a) = true from by simp [hk]]
      exact ⟨b, rfl⟩
    · rw [show (k == a) = false from by simp [hk]]
      simp only [List.map_cons, List.mem_cons] at h
      exact mem_exists_lookup t k (h.resolve_left hk)

theorem removeKey_lookup_ne (l : Listing) (name k : String) (h : k ≠ name) :
    (removeKey l name).lookup k = l.lookup k := by
  induction l with
  | nil => rfl
  | cons p t ih =>
    obtain ⟨a, b⟩ := p
    simp only [removeKey]
    by_cases ha : a = name
    · rw [if_pos ha]
      have hk : (k == a) = false := by
        simp [show k ≠ a from fun hc => h (hc.trans ha)]
      simp only [List.lookup, hk]
      exact ih
    · rw [if_neg ha]
      simp only [List.lookup]
      cases hk : (k == a) with
      | true => rfl
      | false => exact ih

theorem removeKey_lookup_self (l : Listing) (name : String) :
    (removeKey l name).lookup name = none := by
  induction l with
  | nil => rfl
  | cons p t ih =>
    obtain ⟨a, b⟩ := p
    simp only [removeKey]
    by_cases ha : a = name
    · rw [if_pos ha]
      exact ih
    · rw [if_neg ha]
      simp only [List.lookup, beq_false_of_ne (Ne.symm ha)]
      exact ih

/-! ## C4: the update decision -/

/-- **C4.** For non-empty version strings `a` (installed) and `b`
(latest), `download_updates_if_available` decides to update exactly when
`b > a` in lexicographic string order; with no installed version it
always decides to update (given a non-empty latest version). -/
theorem c4_update_decision (a b : String) (ha : a ≠ "") (hb : b ≠ "") :
    (shouldUpdate (some a) (some b) = true ↔ a < b) ∧
      shouldUpdate none (some b) = true := by
  constructor
  · simp only [shouldUpdate, if_neg hb]
    rw [show (decide (a = "") = false) from by simp [ha]]
    simpa using pyLt_iff_lt a b
  · simp [shouldUpdate, hb]

/-- Witness for C4 at `a = "v1.0"`, `b = "v1.2"`. -/
theorem c4_update_decision_witness :
    ("v1.0" : String) ≠ "" ∧ ("v1.2" : String) ≠ "" ∧
      ((shouldUpdate (some "v1.0") (some "v1.2") = true ↔ ("v1.0" : String) < "v1.2") ∧
        shouldUpdate none (some "v1.2") = true) :=
  ⟨by decide, by decide, c4_update_decision "v1.0" "v1.2" (by decide) (by decide)⟩

/-! ## C7: `get_latest_version` -/

/-- **C7.** `get_latest_version` returns `none` exactly when the parsed
latest-release object has no `tag_name` field, and returns the exact
value of that field when present. -/
theorem c7_get_latest_version (j : List (String × String)) :
    (get_latest_version j = none ↔ "tag_name" ∉ j.map Prod.fst) ∧
      (∀ v, j.lookup "tag_name" = some v → get_latest_version j = some v) := by
  constructor
  · unfold get_latest_version
    by_cases hm : "tag_name" ∈ j.map Prod.fst
    · rw [if_neg (by simpa using hm)]
      obtain ⟨v, hv⟩ := mem_exists_lookup j "tag_name" hm
      simp [hv, hm]
    · simp [hm]
  · intro v hv
    unfold get_latest_version
    rw [if_neg (by simpa using lookup_eq_some_mem j "tag_name" v hv)]
    exact hv

/-- Witness for C7 at a one-field object. -/
theorem c7_get_latest_version_witness :
    List.lookup "tag_name" [("tag_name", "v1.2")] = some "v1.2" ∧
      get_latest_version [("tag_name", "v1.2")] = some "v1.2" :=
  ⟨by simp, (c7_get_latest_version [("tag_name", "v1.2")]).2 "v1.2" (by simp)⟩

/-! ## C2, C3: `apply_pending_updates_if_available` -/

/-- **C2.** In any module-directory state whose staging directory
`next` exists and contains a readable `.version` marker with contents
`v`, `apply_pending_updates_if_available` promotes the staging tree:
afterwards the staging tree's listing is at the live path `main_dir`,
`next` is gone, and the promoted tree's marker reads `v`. -/
theorem c2_apply_staging_complete (main_dir : String) (l nc : Listing)
    (v : String)
    (hnext : l.lookup "next" = some (Entry.dir nc))
    (hmem : ".version" ∈ listdir nc)
    (hm : nc.lookup ".version" = some (Entry.file v))
    (hne : main_dir ≠ "next") :
    (apply_pending_updates_if_available main_dir l).lookup main_dir =
        some (Entry.dir nc) ∧
      (apply_pending_updates_if_available main_dir l).lookup "next" = none ∧
      get_version nc = some v := by
  have hmem1 : "next" ∈ listdir l := by
    simpa [listdir] using lookup_eq_some_mem l "next" _ hnext
  have hnext1 :
      (if main_dir ∈ listdir l then removeKey l main_dir else l).lookup "next" =
        some (Entry.dir nc) := by
    split
    · rw [removeKey_lookup_ne l main_dir "next" (Ne.symm hne)]
      exact hnext
    · exact hnext
  have happ :
      apply_pending_updates_if_available main_dir l =
        (main_dir, Entry.dir nc) ::
          removeKey
            (if main_dir ∈ listdir l then removeKey l main_dir else l)
            "next" := by
    simp only [apply_pending_updates_if_available, hmem1, if_true, hnext,
      hmem, renameEntry, hnext1]
  refine ⟨?_, ?_, ?_⟩
  · rw [happ]
    simp [List.lookup]
  · rw [happ]
    simp only [List.lookup, beq_false_of_ne (Ne.symm hne)]
    exact removeKey_lookup_self _ "next"
  · unfold get_version
    rw [if_pos hmem, hm]

/-- Witness for C2: a live tree `main` plus a complete staging tree. -/
theorem c2_apply_staging_complete_witness :
    ([("main", Entry.dir [(".version", Entry.file "v1.0")]),
        ("next", Entry.dir [(".version", Entry.file "v1.2")])] :
          Listing).lookup "next" =
        some (Entry.dir [(".version", Entry.file "v1.2")]) ∧
      (".version" ∈ listdir [(".version", Entry.file "v1.2")]) ∧
      (([(".version", Entry.file "v1.2")] : Listing).lookup ".version" =
        some (Entry.file "v1.2")) ∧
      ("main" : String) ≠ "next" ∧
      ((apply_pending_updates_if_available "main"
            [("main", Entry.dir [(".version", Entry.file "v1.0")]),
              ("next", Entry.dir [(".version", Entry.file "v1.2")])]).lookup
            "main" =
          some (Entry.dir [(".version", Entry.file "v1.2")]) ∧
        (apply_pending_updates_if_available "main"
              [("main", Entry.dir [(".version", Entry.file "v1.0")]),
                ("next", Entry.dir [(".version", Entry.file "v1.2")])]).lookup
            "next" = none ∧
        get_version [(".version", Entry.file "v1.2")] = some "v1.2") :=
  ⟨rfl, by decide, rfl, by decide,
    c2_apply_staging_complete "main"
      [("main", Entry.dir [(".version", Entry.file "v1.0")]),
        ("next", Entry.dir [(".version", Entry.file "v1.2")])]
      [(".version", Entry.file "v1.2")] "v1.2"
      rfl (by decide) rfl (by decide)⟩

/-- **C3.** In any module-directory state whose staging directory
`next` exists but lacks the `.version` marker,
`apply_pending_updates_if_available` deletes the staging tree and leaves
every other entry of the module directory — in particular the live tree
at `main_dir` — unchanged. -/
theorem c3_apply_staging_corrupt (main_dir : String) (l nc : Listing)
    (hnext : l.lookup "next" = some (Entry.dir nc))
    (hno : ".version" ∉ listdir nc)
    (hne : main_dir ≠ "next") :
    (apply_pending_updates_if_available main_dir l).lookup "next" = none ∧
      (∀ k, k ≠ "next" →
        (apply_pending_updates_if_available main_dir l).lookup k =
          l.lookup k) ∧
      (apply_pending_updates_if_available main_dir l).lookup main_dir =
        l.lookup main_dir := by
  have hmem1 : "next" ∈ listdir l := by
    simpa [listdir] using lookup_eq_some_mem l "next" _ hnext
  have happ :
      apply_pending_updates_if_available main_dir l = removeKey l "next" := by
    simp only [apply_pending_updates_if_available, hmem1, if_true, hnext, hno,
      if_false]
  refine ⟨?_, ?_, ?_⟩
  · rw [happ]
    exact removeKey_lookup_self l "next"
  · intro k hk
    rw [happ]
    exact removeKey_lookup_ne l "next" k hk
  · rw [happ]
    exact removeKey_lookup_ne l "next" main_dir hne

/-- Witness for C3: a live tree plus a staging tree with no marker. -/
theorem c3_apply_staging_corrupt_witness :
    ([("main", Entry.dir [(".version", Entry.file "v1.0")]),
        ("next", Entry.dir [("a.py", Entry.file "A")])] :
          Listing).lookup "next" =
        some (Entry.dir [("a.py", Entry.file "A")]) ∧
      (".version" ∉ listdir [("a.py", Entry.file "A")]) ∧
      ("main" : String) ≠ "next" ∧
      ((apply_pending_updates_if_available "main"
            [("main", Entry.dir [(".version", Entry.file "v1.0")]),
              ("next", Entry.dir [("a.py", Entry.file "A")])]).lookup
            "next" = none ∧
        (∀ k, k ≠ "next" →
          (apply_pending_updates_if_available "main"
                [("main", Entry.dir [(".version", Entry.file "v1.0")]),
                  ("next", Entry.dir [("a.py", Entry.file "A")])]).lookup k =
            ([("main", Entry.dir [(".version", Entry.file "v1.0")]),
                ("next", Entry.dir [("a.py", Entry.file "A")])] :
                  Listing).lookup k) ∧
        (apply_pending_updates_if_available "main"
              [("main", Entry.dir [(".version", Entry.file "v1.0")]),
                ("next", Entry.dir [("a.py", Entry.file "A")])]).lookup
            "main" =
          ([("main", Entry.dir [(".version", Entry.file "v1.0")]),
              ("next", Entry.dir [("a.py", Entry.file "A")])] :
                Listing).lookup "main") :=
  ⟨rfl, by decide, by decide,
    c3_apply_staging_corrupt "main"
      [("main", Entry.dir [(".version", Entry.file "v1.0")]),
        ("next", Entry.dir [("a.py", Entry.file "A")])]
      [("a.py", Entry.file "A")] rfl (by decide) (by decide)⟩

/-! ## C5: header-parsing rejections -/

theorem parseHeaders_step_clean (status : Int) (p : String)
    (rest : List String) (ht : isTerminator p = false)
    (ho : offendingLine status p = false) :
    parseHeaders status (p :: rest) = parseHeaders status rest := by
  simp only [offendingLine, Bool.or_eq_false_iff, Bool.and_eq_false_iff] at ho
  cases hTE : isPrefix "Transfer-Encoding:".data p.data with
  | true =>
    have hch : hasSubstr p.data "chunked".data = false := by
      rcases ho.1 with h | h
      · rw [hTE] at h
        cases h
      · exact h
    simp only [parseHeaders, ht, Bool.false_eq_true, if_false, hTE, if_true,
      hch]
  | false =>
    have hloc :
        (isPrefix "Location:".data p.data &&
          ! decide (200 ≤ status ∧ status ≤ 299)) = false := by
      rcases ho.2 with h | h
      · exact Bool.and_eq_false_iff.mpr (Or.inl h)
      · exact Bool.and_eq_false_iff.mpr (Or.inr h)
    simp only [parseHeaders, ht, Bool.false_eq_true, if_false, hTE, hloc]

theorem isPrefix_T_not_terminator (l : String)
    (h : isPrefix "Transfer-Encoding:".data l.data = true) :
    isTerminator l = false := by
  by_cases h1 : l = ""
  · subst h1
    exact absurd h (by decide)
  · by_cases h2 : l = "\r\n"
    · subst h2
      exact absurd h (by decide)
    · simp [isTerminator, h1, h2]

theorem isPrefix_L_not_terminator (l : String)
    (h : isPrefix "Location:".data l.data = true) :
    isTerminator l = false := by
  by_cases h1 : l = ""
  · subst h1
    exact absurd h (by decide)
  · by_cases h2 : l = "\r\n"
    · subst h2
      exact absurd h (by decide)
    · simp [isTerminator, h1, h2]

theorem isPrefix_L_not_T (l : String)
    (h : isPrefix "Location:".data l.data = true) :
    isPrefix "Transfer-Encoding:".data l.data = false := by
  cases hd : l.data with
  | nil => rw [hd] at h; exact absurd h (by decide)
  | cons c cs =>
    rw [hd] at h
    have hc : c = 'L' := by
      have : ('L' = c && isPrefix "ocation:".data cs) = true := h
      have := (Bool.and_eq_true _ _).mp this
      exact (of_decide_eq_true this.1).symm
    subst hc
    show ('T' = 'L' && isPrefix "ransfer-Encoding:".data cs) = false
    simp


/-- **C5 (amended).** During header parsing — before any body data is
examined — `HttpClient.request` fails with the chunked-encoding error
when a chunked `Transfer-Encoding` line is the first offending header
line, and with the redirect error when a `Location` line with a status
outside `[200, 299]` is the first offending header line; conversely a
response none of whose header lines is offending (in particular a 3xx
response without a `Location` header) is not rejected.  The parse result
is determined by the header block alone: lines after the blank
terminator are never examined. -/
theorem c5_header_rejections (status : Int) :
    (∀ (pre : List String) (l : String) (rest : List String),
        (∀ p ∈ pre, isTerminator p = false ∧ offendingLine status p = false) →
        isPrefix "Transfer-Encoding:".data l.data = true →
        hasSubstr l.data "chunked".data = true →
        parseHeaders status (pre ++ l :: rest) =
          .error (.unsupportedEncoding l)) ∧
      (∀ (pre : List String) (l : String) (rest : List String),
        (∀ p ∈ pre, isTerminator p = false ∧ offendingLine status p = false) →
        isPrefix "Location:".data l.data = true →
        ¬(200 ≤ status ∧ status ≤ 299) →
        parseHeaders status (pre ++ l :: rest) =
          .error .unsupportedRedirect) ∧
      (∀ (hdrs body : List String),
        parseHeaders status (hdrs ++ "\r\n" :: body) =
          parseHeaders status (hdrs ++ ["\r\n"])) ∧
      (∀ lines : List String,
        (∀ p ∈ lines, offendingLine status p = false) →
        parseHeaders status lines = .ok ()) := by
  refine ⟨?_, ?_, ?_, ?_⟩
  · intro pre l rest hclean hTE hch
    induction pre with
    | nil =>
      have ht : isTerminator l = false := isPrefix_T_not_terminator l hTE
      simp only [List.nil_append, parseHeaders, ht, Bool.false_eq_true,
        if_false, hTE, if_true, hch]
    | cons p t ih =>
      have hp := hclean p (List.mem_cons_self p t)
      rw [List.cons_append,
        parseHeaders_step_clean status p _ hp.1 hp.2]
      exact ih fun q hq => hclean q (List.mem_cons_of_mem p hq)
  · intro pre l rest hclean hL hs
    induction pre with
    | nil =>
      have ht : isTerminator l = false := isPrefix_L_not_terminator l hL
      have hTE : isPrefix "Transfer-Encoding:".data l.data = false :=
        isPrefix_L_not_T l hL
      have hcond :
          (isPrefix "Location:".data l.data &&
            ! decide (200 ≤ status ∧ status ≤ 299)) = true := by
        rw [hL]
        simp [hs]
      simp only [List.nil_append, parseHeaders, ht, Bool.false_eq_true,
        if_false, hTE, hcond, if_true]
    | cons p t ih =>
      have hp := hclean p (List.mem_cons_self p t)
      rw [List.cons_append,
        parseHeaders_step_clean status p _ hp.1 hp.2]
      exact ih fun q hq => hclean q (List.mem_cons_of_mem p hq)
  · intro hdrs body
    induction hdrs with
    | nil =>
      simp only [List.nil_append, parseHeaders,
        show isTerminator "\r\n" = true from rfl, if_true]
    | cons p t ih =>
      by_cases ht : isTerminator p = true
      · simp only [List.cons_append, parseHeaders, ht, if_true]
      · have ht' : isTerminator p = false := eq_false_of_ne_true ht
        simp only [List.cons_append, parseHeaders, ht', Bool.false_eq_true,
          if_false]
        cases hTE : isPrefix "Transfer-Encoding:".data p.data with
        | true =>
          cases hch : hasSubstr p.data "chunked".data with
          | true => simp [hch]
          | false =>
            simp only [if_true, hch, Bool.false_eq_true, if_false]
            exact ih
        | false =>
          cases hcond : (isPrefix "Location:".data p.data &&
              ! decide (200 ≤ status ∧ status ≤ 299)) with
          | true => simp [hcond]
          | false =>
            simp only [Bool.false_eq_true, if_false, hcond]
            exact ih
  · intro lines hclean
    induction lines with
    | nil => rfl
    | cons p t ih =>
      by_cases ht : isTerminator p = true
      · simp only [parseHeaders, ht, if_true]
      · have ht' : isTerminator p = false := eq_false_of_ne_true ht
        rw [parseHeaders_step_clean status p t ht'
          (hclean p (List.mem_cons_self p t))]
        exact ih fun q hq => hclean q (List.mem_cons_of_mem p hq)

/-- Witness for C5 (amended): a chunked response is rejected with the
encoding error; a non-2xx response bearing a `Location` header is
rejected with the redirect error. -/
theorem c5_header_rejections_witness :
    isPrefix "Transfer-Encoding:".data
        ("Transfer-Encoding: chunked\r\n" : String).data = true ∧
      hasSubstr ("Transfer-Encoding: chunked\r\n" : String).data
        "chunked".data = true ∧
      parseHeaders 200 ["Transfer-Encoding: chunked\r\n"] =
        .error (.unsupportedEncoding "Transfer-Encoding: chunked\r\n") ∧
      parseHeaders 301 ["Location: /x\r\n"] = .error .unsupportedRedirect :=
  ⟨by decide, by decide,
    (c5_header_rejections 200).1 [] "Transfer-Encoding: chunked\r\n" []
      (by simp) (by decide) (by decide),
    (c5_header_rejections 301).2.1 [] "Location: /x\r\n" []
      (by simp) (by decide) (by decide)⟩

/-- Counterexample to C5 as stated: a response with status 301 — squarely
in `[300, 399]` — whose headers carry no `Location` line parses
successfully; the claimed unconditional 3xx rejection does not happen. -/
theorem c5_counterexample :
    (300 ≤ (301 : Int) ∧ (301 : Int) ≤ 399) ∧
      parseHeaders 301 ["Server: x\r\n", "\r\n"] = Except.ok () :=
  ⟨by decide, rfl⟩

/-! ## C9: request emission order -/

/-- The byte stream obtained by concatenating a sequence of socket
writes. -/
def wireStream (ws : List String) : String := ws.foldr (· ++ ·) ""

theorem wireStream_nil : wireStream [] = "" := rfl

theorem wireStream_cons (x : String) (l : List String) :
    wireStream (x :: l) = x ++ wireStream l := rfl

theorem wireStream_append (l1 l2 : List String) :
    wireStream (l1 ++ l2) = wireStream l1 ++ wireStream l2 := by
  induction l1 with
  | nil => rw [List.nil_append, wireStream_nil, String.empty_append]
  | cons a t ih =>
    rw [List.cons_append, wireStream_cons, wireStream_cons, ih,
      String.append_assoc]

theorem wireStream_headerChunks (headers : List (String × String)) :
    wireStream (headers.flatMap fun kv => [kv.1, ": ", kv.2, "\r\n"]) =
      wireStream (headers.map fun kv => kv.1 ++ ": " ++ kv.2 ++ "\r\n") := by
  induction headers with
  | nil => rfl
  | cons a t ih =>
    simp only [List.flatMap_cons, List.map_cons, wireStream_append,
      wireStream_cons, wireStream_nil, ih, String.append_empty,
      String.append_assoc]

theorem ua_chunks (s : String) :
    "User-Agent" ++ (": " ++ ("MicroPython OTAUpdater" ++ ("\r\n" ++ s))) =
      "User-Agent: MicroPython OTAUpdater\r\n" ++ s := by
  rw [← String.append_assoc, ← String.append_assoc, ← String.append_assoc]
  rfl

theorem ua_chunks_end :
    ("User-Agent" : String) ++ (": " ++ ("MicroPython OTAUpdater" ++ "\r\n")) =
      "User-Agent: MicroPython OTAUpdater\r\n" := by
  rw [← String.append_assoc, ← String.append_assoc]
  rfl

/-- The emission order the claim describes (user-agent before the
caller-supplied headers), for comparison with the code's
`requestWrites`. -/
def specRequestWrites (method path host : String)
    (headers : List (String × String)) (jsonData data0 : Option String) :
    List String :=
  let data : Option String := match jsonData with
    | some j => some j
    | none => data0
  [method ++ " /" ++ path ++ " HTTP/1.0\r\n"] ++
    (if "Host" ∈ headers.map Prod.fst then [] else ["Host: " ++ host ++ "\r\n"]) ++
    ["User-Agent", ": ", "MicroPython OTAUpdater", "\r\n"] ++
    (headers.flatMap fun kv => [kv.1, ": ", kv.2, "\r\n"]) ++
    (if jsonData.isSome then ["Content-Type: application/json\r\n"] else []) ++
    (match data with
      | some d => if d ≠ "" then ["Content-Length: " ++ toString d.length ++ "\r\n"] else []
      | none => []) ++
    ["\r\n"] ++
    (match data with
      | some d => if d ≠ "" then [d] else []
      | none => [])

/-- Counterexample to C9 as stated: with a single caller header
`X-A: 1`, the code emits the caller header before the fixed user-agent
identifier, not after it as the claim orders the writes. -/
theorem c9_counterexample :
    requestWrites "GET" "p" "h" [("X-A", "1")] none none ≠
      specRequestWrites "GET" "p" "h" [("X-A", "1")] none none := by
  decide

/-- **C9 (amended).** The wire bytes `HttpClient.request` emits are, in
order: the HTTP request line; a `Host` header when the caller did not
supply one; the caller-supplied headers; the fixed user-agent
identifier; the optional `Content-Type`/`Content-Length` headers; the
blank line that ends the header block; then the optional body. -/
theorem c9_request_write_order (method path host : String)
    (headers : List (String × String)) (jsonData data0 : Option String) :
    wireStream (requestWrites method path host headers jsonData data0) =
      (method ++ " /" ++ path ++ " HTTP/1.0\r\n") ++
        ((if "Host" ∈ headers.map Prod.fst then "" else "Host: " ++ host ++ "\r\n") ++
          (wireStream (headers.map fun kv => kv.1 ++ ": " ++ kv.2 ++ "\r\n") ++
            ("User-Agent: MicroPython OTAUpdater\r\n" ++
              ((if jsonData.isSome then "Content-Type: application/json\r\n" else "") ++
                ((match (match jsonData with
                    | some j => some j
                    | none => data0) with
                  | some d =>
                    if d ≠ "" then "Content-Length: " ++ toString d.length ++ "\r\n"
                    else ""
                  | none => "") ++
                  ("\r\n" ++
                    (match (match jsonData with
                      | some j => some j
                      | none => data0) with
                    | some d => if d ≠ "" then d else ""
                    | none => ""))))))) := by
  by_cases hHost : "Host" ∈ headers.map Prod.fst <;>
    cases jsonData with
    | some j =>
      by_cases hj : j = "" <;>
        simp [requestWrites, hHost, hj, wireStream_append,
          wireStream_headerChunks, wireStream_cons, wireStream_nil,
          String.append_assoc, String.append_empty, String.empty_append,
          ua_chunks, ua_chunks_end]
    | none =>
      cases data0 with
      | some d =>
        by_cases hd : d = "" <;>
          simp [requestWrites, hHost, hd, wireStream_append,
            wireStream_headerChunks, wireStream_cons, wireStream_nil,
            String.append_assoc, String.append_empty, String.empty_append,
            ua_chunks, ua_chunks_end]
      | none =>
        simp [requestWrites, hHost, wireStream_append,
          wireStream_headerChunks, wireStream_cons, wireStream_nil,
          String.append_assoc, String.append_empty, String.empty_append,
          ua_chunks, ua_chunks_end]

/-! ## C10: the staging path computed by `download_all_files` -/

theorem isPrefix_append_self : ∀ l s : List Char, isPrefix l (l ++ s) = true
  | [], _ => rfl
  | a :: t, s => by simp [isPrefix, isPrefix_append_self t s]

theorem isPrefix_nil_of_ne {pat : List Char} (h : pat ≠ []) :
    isPrefix pat [] = false := by
  cases pat with
  | nil => exact absurd rfl h
  | cons a t => rfl

theorem replF_fuel (pat : List Char) :
    ∀ (f1 f2 : Nat) (s : List Char), s.length ≤ f1 → s.length ≤ f2 →
      pyReplaceDelF pat f1 s = pyReplaceDelF pat f2 s := by
  intro f1
  induction f1 with
  | zero =>
    intro f2 s h1 _
    have : s = [] := List.eq_nil_of_length_eq_zero (Nat.le_zero.mp h1)
    subst this
    cases f2 <;> rfl
  | succ f ih =>
    intro f2 s h1 h2
    cases s with
    | nil => cases f2 <;> rfl
    | cons c rest =>
      cases f2 with
      | zero => simp at h2
      | succ f2' =>
        simp only [pyReplaceDelF]
        by_cases hcond : pat ≠ [] ∧ isPrefix pat (c :: rest) = true
        · rw [if_pos hcond, if_pos hcond]
          apply ih
          · simp only [List.length_drop]
            simp only [List.length_cons] at h1
            omega
          · simp only [List.length_drop]
            simp only [List.length_cons] at h2
            omega
        · rw [if_neg hcond, if_neg hcond]
          simp only [List.length_cons] at h1 h2
          rw [ih f2' rest (by omega) (by omega)]

theorem replF_length_le (pat : List Char) :
    ∀ (f : Nat) (s : List Char), (pyReplaceDelF pat f s).length ≤ s.length := by
  intro f
  induction f with
  | zero =>
    intro s
    cases s <;> simp [pyReplaceDelF]
  | succ f ih =>
    intro s
    cases s with
    | nil => simp [pyReplaceDelF]
    | cons c rest =>
      simp only [pyReplaceDelF]
      by_cases hcond : pat ≠ [] ∧ isPrefix pat (c :: rest) = true
      · rw [if_pos hcond]
        calc (pyReplaceDelF pat f (List.drop (pat.length - 1) rest)).length
            ≤ (List.drop (pat.length - 1) rest).length := ih _
          _ ≤ (c :: rest).length := by
              simp only [List.length_drop, List.length_cons]
              omega
      · rw [if_neg hcond]
        simp only [List.length_cons]
        exact Nat.succ_le_succ (ih rest)

theorem replDel_prefix_skip (pat s : List Char) (hne : pat ≠ []) :
    pyReplaceDel pat (pat ++ s) = pyReplaceDel pat s := by
  obtain ⟨p0, pt, rfl⟩ := List.exists_cons_of_ne_nil hne
  rw [pyReplaceDel, List.cons_append]
  simp only [List.length_cons, pyReplaceDelF]
  rw [if_pos ⟨hne, by rw [← List.cons_append]; exact isPrefix_append_self _ s⟩]
  rw [Nat.add_sub_cancel, List.drop_left]
  exact replF_fuel (p0 :: pt) ((pt ++ s).length) s.length s
    (by simp [List.length_append]) (le_refl _)

theorem replF_no_occur (pat : List Char) :
    ∀ (f : Nat) (s : List Char), hasSubstr s pat = false →
      pyReplaceDelF pat f s = s := by
  intro f
  induction f with
  | zero =>
    intro s _
    cases s <;> rfl
  | succ f ih =>
    intro s h
    cases s with
    | nil => rfl
    | cons c rest =>
      simp only [hasSubstr, Bool.or_eq_false_iff] at h
      simp only [pyReplaceDelF]
      rw [if_neg fun hcond => absurd hcond.2 (by simp [h.1])]
      rw [ih rest h.2]

theorem replF_shrink (pat : List Char) (hne : pat ≠ []) :
    ∀ (f : Nat) (s : List Char), s.length ≤ f → hasSubstr s pat = true →
      (pyReplaceDelF pat f s).length < s.length := by
  intro f
  induction f with
  | zero =>
    intro s h1 h2
    have : s = [] := List.eq_nil_of_length_eq_zero (Nat.le_zero.mp h1)
    subst this
    simp only [hasSubstr, isPrefix_nil_of_ne hne] at h2
    cases h2
  | succ f ih =>
    intro s h1 h2
    cases s with
    | nil =>
      simp only [hasSubstr, isPrefix_nil_of_ne hne] at h2
      cases h2
    | cons c rest =>
      simp only [pyReplaceDelF]
      by_cases hcond : pat ≠ [] ∧ isPrefix pat (c :: rest) = true
      · rw [if_pos hcond]
        calc (pyReplaceDelF pat f (List.drop (pat.length - 1) rest)).length
            ≤ (List.drop (pat.length - 1) rest).length := replF_length_le _ _ _
          _ ≤ rest.length := by
              simp only [List.length_drop]
              omega
          _ < (c :: rest).length := by simp
      · rw [if_neg hcond]
        have hpre : isPrefix pat (c :: rest) = false := by
          cases hp : isPrefix pat (c :: rest) with
          | true => exact absurd ⟨hne, hp⟩ hcond
          | false => rfl
        have hrest : hasSubstr rest pat = true := by
          simp only [hasSubstr, hpre, Bool.false_or] at h2
          exact h2
        simp only [List.length_cons] at h1 ⊢
        exact Nat.succ_lt_succ (ih rest (by omega) hrest)

theorem mainDirSlash_data_ne_nil (main_dir : String) :
    (main_dir ++ "/").data ≠ [] := by
  rw [String.data_append]
  intro h
  rcases List.append_eq_nil.mp h with ⟨_, h2⟩
  exact absurd h2 (by decide)

/-- **C10.** `download_all_files` computes the local staging path of a
remote entry by deleting every occurrence of `main_dir ++ "/"` from the
entry's path (a replace-all) and prefixing `next/`: when the entry's
path contains `main_dir ++ "/"` only as its leading prefix the result is
`next/<relative>`; when the substring occurs again deeper in the path,
the entry is written to a different, collapsed path. -/
theorem c10_staging_path (module main_dir : String) :
    (∀ rest : String,
        hasSubstr rest.data (main_dir ++ "/").data = false →
        stagingPath module main_dir (main_dir ++ "/" ++ rest) =
          get_module_and_path module ("next/" ++ rest)) ∧
      (∀ rest : String,
        hasSubstr rest.data (main_dir ++ "/").data = true →
        stagingPath module main_dir (main_dir ++ "/" ++ rest) ≠
          get_module_and_path module ("next/" ++ rest)) := by
  have hne := mainDirSlash_data_ne_nil main_dir
  have hdata : ∀ rest : String,
      (main_dir ++ "/" ++ rest).data = (main_dir ++ "/").data ++ rest.data :=
    fun rest => String.data_append _ _
  have hskip : ∀ rest : String,
      pyReplaceDel (main_dir ++ "/").data (main_dir ++ "/" ++ rest).data =
        pyReplaceDel (main_dir ++ "/").data rest.data := by
    intro rest
    rw [hdata rest]
    exact replDel_prefix_skip _ _ hne
  constructor
  · intro rest hno
    unfold stagingPath
    rw [hskip rest, pyReplaceDel, replF_no_occur _ _ _ hno]
  · intro rest hocc h
    have hlt :
        (pyReplaceDel (main_dir ++ "/").data rest.data).length <
          rest.data.length :=
      replF_shrink _ hne _ _ (le_refl _) hocc
    unfold stagingPath at h
    rw [hskip rest] at h
    have hlen := congrArg String.length h
    simp only [get_module_and_path] at hlen
    have h1 : (String.mk (pyReplaceDel (main_dir ++ "/").data rest.data)).length =
        (pyReplaceDel (main_dir ++ "/").data rest.data).length := rfl
    have h2 : rest.length = rest.data.length := rfl
    simp [String.data_append] at hlt
    by_cases hm : module = "" <;>
      simp [hm, String.length_append] at hlen <;>
      omega

/-- Witness for C10: `main/a.py` stages to `next/a.py`; `main/main/x`
collapses instead of staging to `next/main/x`. -/
theorem c10_staging_path_witness :
    hasSubstr ("a.py" : String).data ("main" ++ "/" : String).data = false ∧
      stagingPath "" "main" ("main" ++ "/" ++ "a.py") =
        get_module_and_path "" ("next/" ++ "a.py") ∧
      hasSubstr ("main/x" : String).data ("main" ++ "/" : String).data = true ∧
      stagingPath "" "main" ("main" ++ "/" ++ "main/x") ≠
        get_module_and_path "" ("next/" ++ "main/x") :=
  ⟨by decide,
    (c10_staging_path "" "main").1 "a.py" (by decide),
    by decide,
    (c10_staging_path "" "main").2 "main/x" (by decide)⟩

/-! ## C6: the socket is closed exactly once -/

theorem iterClose_of_closed (k : Nat) :
    ∀ (r : RespState) (n : Nat), r.raw = none →
      (iterClose k (r, n)).2 = n := by
  induction k with
  | zero => intro r n _; rfl
  | succ k ih =>
    intro r n h
    obtain ⟨raw, cached⟩ := r
    cases raw with
    | none => exact ih ⟨none, none⟩ n rfl
    | some s => cases h

/-- Counterexample to C6 as stated: the chunked-encoding and redirect
rejections are raised as `ValueError`/`NotImplementedError`, which the
`except OSError` clause (lines 296–298) does not catch — on that path
the socket receives zero closes (it is left open and is never handed to
a `Response`), not exactly one. -/
theorem c6_counterexample :
    socketCloses (Usage.requestFails
        (ReqFailure.headerRejection HttpError.unsupportedRedirect)) ≠ 1 ∧
      socketCloses (Usage.requestFails
        (ReqFailure.headerRejection HttpError.unsupportedRedirect)) = 0 := by
  decide

/-- **C6 (amended).** Over every complete usage path of
`HttpClient.request` and `Response` whose request-phase failure, if any,
is an `OSError` — socket-level — the underlying socket receives exactly
one close: the `except OSError` clause closes it before propagating, or
it is handed to a `Response` that closes it on first body read or on
`close()`, double-close being a no-op; moreover a read served from the
cache never touches the socket.  But when `request` fails with the
chunked-encoding or redirect rejection (`ValueError` /
`NotImplementedError`), `except OSError` does not catch it: the socket
is left open — zero closes — and is never handed to a `Response`. -/
theorem c6_socket_lifecycle :
    (∀ u : Usage, (∀ k, u = Usage.closesOnly k → 1 ≤ k) →
        (∀ e : HttpError,
          u ≠ Usage.requestFails (ReqFailure.headerRejection e)) →
        socketCloses u = 1) ∧
      (∀ e : HttpError,
        socketCloses (Usage.requestFails (ReqFailure.headerRejection e)) = 0) ∧
      (∀ (n : Nat) (bytes : String) (readResult : Except Unit String),
        respContent ⟨none, some bytes⟩ n readResult =
          (⟨none, some bytes⟩, n, .ok bytes)) ∧
      (∀ n : Nat, respClose ⟨none, none⟩ n = (⟨none, none⟩, n)) := by
  refine ⟨?_, fun _ => rfl, fun _ _ _ => rfl, fun _ => rfl⟩
  intro u hvalid hnr
  cases u with
  | requestFails f =>
    cases f with
    | osError => rfl
    | headerRejection e => exact absurd rfl (hnr e)
  | readThenCloses readOk k =>
    cases readOk with
    | true =>
      show (iterClose k (⟨none, some "body"⟩, 1)).2 = 1
      exact iterClose_of_closed k ⟨none, some "body"⟩ 1 rfl
    | false =>
      show (iterClose k (⟨none, none⟩, 1)).2 = 1
      exact iterClose_of_closed k ⟨none, none⟩ 1 rfl
  | closesOnly k =>
    cases k with
    | zero => exact absurd (hvalid 0 rfl) (by decide)
    | succ k' =>
      show (iterClose k' (⟨none, none⟩, 1)).2 = 1
      exact iterClose_of_closed k' ⟨none, none⟩ 1 rfl

/-- Witness for C6 (amended): a successful read followed by two closes,
and a bare double close, each reach the socket exactly once. -/
theorem c6_socket_lifecycle_witness :
    socketCloses (Usage.readThenCloses true 2) = 1 ∧
      socketCloses (Usage.closesOnly 2) = 1 :=
  ⟨c6_socket_lifecycle.1 (Usage.readThenCloses true 2)
      (by intro k h; exact absurd h (by simp))
      (by intro e h; exact absurd h (by simp)),
    c6_socket_lifecycle.1 (Usage.closesOnly 2)
      (by intro k h; cases h; decide)
      (by intro e h; exact absurd h (by simp))⟩

/-! ## C8: `rmtree` removes the whole tree, children before parents -/

theorem rmtree_targets_all :
    (∀ (d : String) (cs : List (String × Entry)),
        (rmtree d cs).map FsOp.target = subPaths d cs) ∧
      (∀ (d : String) (l : List (String × Entry)),
        (rmtreeGo d l).map FsOp.target = subPathsGo d l) := by
  refine rmtree.mutual_induct
    (fun d cs => (rmtree d cs).map FsOp.target = subPaths d cs)
    (fun d l => (rmtreeGo d l).map FsOp.target = subPathsGo d l) ?_ ?_ ?_
  · intro d cs h2
    simp [rmtree, subPaths, h2, FsOp.target]
  · intro d
    simp [rmtreeGo, subPathsGo]
  · intro d name e rest h1 h2
    cases e with
    | file c =>
      simp [rmtreeGo, subPathsGo, entryCode, FsOp.target, h2]
    | dir cs =>
      have h1' := h1 rfl
      simp only [childrenOf] at h1'
      simp [rmtreeGo, subPathsGo, entryCode, childrenOf, h2, h1']

theorem applyOps_mem (ops : List FsOp) :
    ∀ (store : List String) (p : String),
      p ∈ applyOps store ops ↔ p ∈ store ∧ ∀ op ∈ ops, p ≠ op.target := by
  induction ops with
  | nil => intro store p; simp [applyOps]
  | cons op t ih =>
    intro store p
    rw [show applyOps store (op :: t) =
        applyOps (store.filter fun q => q ≠ op.target) t from rfl, ih]
    simp [List.mem_filter, and_assoc]

theorem rmtreeGo_infix_of_mem (d name : String) (sub : List (String × Entry)) :
    ∀ cs : List (String × Entry), (name, Entry.dir sub) ∈ cs →
      ∃ pre post,
        rmtreeGo d cs = pre ++ rmtree (d ++ "/" ++ name) sub ++ post := by
  intro cs hmem
  induction cs with
  | nil => cases hmem
  | cons hd t ih =>
    rcases List.mem_cons.mp hmem with heq | hmem'
    · subst heq
      refine ⟨[], rmtreeGo d t, ?_⟩
      simp [rmtreeGo, entryCode, childrenOf]
    · obtain ⟨pre, post, hpp⟩ := ih hmem'
      obtain ⟨n2, e2⟩ := hd
      refine ⟨(if entryCode e2 = 0x4000 then
          rmtree (d ++ "/" ++ n2) (childrenOf e2)
        else [FsOp.remove (d ++ "/" ++ n2)]) ++ pre, post, ?_⟩
      simp only [rmtreeGo, hpp, List.append_assoc]

/-- **C8.** For every finite tree (of arbitrary nesting) rooted at
`directory`, the removal trace `rmtree` issues: (a) deletes every path
of the tree, the root itself included, from any store of existing paths;
(b) deletes nothing else; (c) ends by removing the root directory
itself; and (d) for every subdirectory reached inside the tree, the
operations on that subdirectory's children form a contiguous block
immediately preceding that subdirectory's own `rmdir` — children are
always removed before their parent. -/
theorem c8_rmtree (d : String) (cs : List (String × Entry))
    (store : List String) :
    (∀ p ∈ subPaths d cs, p ∉ applyOps store (rmtree d cs)) ∧
      (∀ p, p ∉ subPaths d cs →
        (p ∈ applyOps store (rmtree d cs) ↔ p ∈ store)) ∧
      (rmtree d cs).getLast? = some (FsOp.rmdir d) ∧
      (∀ (q : String) (qs : List (String × Entry)), Reaches d cs q qs →
        ∃ pre post,
          rmtree d cs = pre ++ (rmtreeGo q qs ++ [FsOp.rmdir q]) ++ post) := by
  refine ⟨?_, ?_, ?_, ?_⟩
  · intro p hp hmem
    rw [applyOps_mem] at hmem
    rw [← rmtree_targets_all.1 d cs] at hp
    obtain ⟨op, hop, hopt⟩ := List.mem_map.mp hp
    exact hmem.2 op hop hopt.symm
  · intro p hp
    rw [applyOps_mem]
    have hall : ∀ op ∈ rmtree d cs, p ≠ op.target := by
      intro op hop heq
      apply hp
      rw [← rmtree_targets_all.1 d cs]
      exact List.mem_map.mpr ⟨op, hop, heq.symm⟩
    exact ⟨fun h => h.1, fun h => ⟨h, hall⟩⟩
  · rw [show rmtree d cs = rmtreeGo d cs ++ [FsOp.rmdir d] from by
      simp [rmtree]]
    exact List.getLast?_concat _
  · intro q qs hreach
    induction hreach with
    | refl d0 cs0 =>
      exact ⟨[], [], by simp [rmtree]⟩
    | @step d0 cs0 q0 qs0 name sub hmem hreach2 ih =>
      obtain ⟨pre, post, hpp⟩ := ih
      obtain ⟨pre1, post1, hpp1⟩ := rmtreeGo_infix_of_mem d0 name sub cs0 hmem
      refine ⟨pre1 ++ pre, post ++ post1 ++ [FsOp.rmdir d0], ?_⟩
      rw [show rmtree d0 cs0 = rmtreeGo d0 cs0 ++ [FsOp.rmdir d0] from by
        simp [rmtree]]
      rw [hpp1, hpp]
      simp [List.append_assoc]

/-- Witness for C8 on the two-level tree
`main/{a.py, sub/{b.py}}`: the nested file's path is in the tree and is
removed from the store. -/
theorem c8_rmtree_witness :
    ("main/sub/b.py" ∈
        subPaths "main"
          [("a.py", Entry.file "A"),
            ("sub", Entry.dir [("b.py", Entry.file "B")])]) ∧
      "main/sub/b.py" ∉
        applyOps ["main", "main/a.py", "main/sub", "main/sub/b.py", "keep"]
          (rmtree "main"
            [("a.py", Entry.file "A"),
              ("sub", Entry.dir [("b.py", Entry.file "B")])]) :=
  ⟨by simp [subPaths, subPathsGo],
    (c8_rmtree "main"
        [("a.py", Entry.file "A"),
          ("sub", Entry.dir [("b.py", Entry.file "B")])]
        ["main", "main/a.py", "main/sub", "main/sub/b.py", "keep"]).1
      "main/sub/b.py" (by simp [subPaths, subPathsGo])⟩

/-! ## C1: the staging marker is the final staging-phase write -/

theorem writePaths_append (l1 l2 : List DlOp) :
    writePaths (l1 ++ l2) = writePaths l1 ++ writePaths l2 := by
  induction l1 with
  | nil => rfl
  | cons op t ih => cases op <;> simp [writePaths, ih]

/-- **C1 (amended).** On every execution of the staging phase of
`download_updates_if_available` — for every remote tree without
exception — the `next/.version` marker write is the final filesystem
write, after every file download; and, as long as no remote file
entry's computed staging path coincides with the marker path itself, an
abandoned prefix of the staging writes that contains a write to the
marker path is necessarily the complete trace, so all downloads
completed. -/
theorem c1_marker_write_last (module main_dir : String) (mm : Bool)
    (items : List RemoteItem) (v : String) :
    (download_updates_trace module main_dir mm items v).getLast? =
        some (DlOp.writeFile (get_module_and_path module "next/.version") v) ∧
      (get_module_and_path module "next/.version" ∉
          writePaths (download_all_files module main_dir items) →
        ∀ n : Nat,
          get_module_and_path module "next/.version" ∈
              writePaths ((download_updates_trace module main_dir mm items v).take n) →
          (download_updates_trace module main_dir mm items v).take n =
            download_updates_trace module main_dir mm items v) := by
  have hsplit :
      download_updates_trace module main_dir mm items v =
        ((if mm then [DlOp.mkdir module] else []) ++
            DlOp.mkdir (get_module_and_path module "next") ::
              download_all_files module main_dir items) ++
          [DlOp.writeFile (get_module_and_path module "next/.version") v] := by
    simp [download_updates_trace]
  have hfrontPaths :
      writePaths ((if mm then [DlOp.mkdir module] else []) ++
          DlOp.mkdir (get_module_and_path module "next") ::
            download_all_files module main_dir items) =
        writePaths (download_all_files module main_dir items) := by
    cases mm <;> simp [writePaths_append, writePaths]
  constructor
  · rw [hsplit]
    exact List.getLast?_concat _
  · intro hno n hmem
    by_cases hn : (download_updates_trace module main_dir mm items v).length ≤ n
    · exact List.take_of_length_le hn
    · exfalso
      apply hno
      rw [hsplit] at hmem hn
      generalize hfr : (if mm then [DlOp.mkdir module] else []) ++
          DlOp.mkdir (get_module_and_path module "next") ::
            download_all_files module main_dir items = front at hmem hn hfrontPaths
      have hlen : n ≤ front.length := by
        simp [List.length_append] at hn
        omega
      rw [List.take_append_of_le_length hlen] at hmem
      have hfull :
          get_module_and_path module "next/.version" ∈ writePaths front := by
        rw [← List.take_append_drop n front, writePaths_append]
        exact List.mem_append.mpr (Or.inl hmem)
      rw [hfrontPaths] at hfull
      exact hfull

/-- Witness for C1 (amended) on the one-file remote tree
`{main/a.py}`. -/
theorem c1_marker_write_last_witness :
    get_module_and_path "" "next/.version" ∉
        writePaths (download_all_files "" "main"
          [RemoteItem.rfile "main/a.py" "A"]) ∧
      ((download_updates_trace "" "main" false
            [RemoteItem.rfile "main/a.py" "A"] "v1.2").getLast? =
          some (DlOp.writeFile (get_module_and_path "" "next/.version") "v1.2") ∧
        (∀ n : Nat,
          get_module_and_path "" "next/.version" ∈
              writePaths ((download_updates_trace "" "main" false
                [RemoteItem.rfile "main/a.py" "A"] "v1.2").take n) →
          (download_updates_trace "" "main" false
              [RemoteItem.rfile "main/a.py" "A"] "v1.2").take n =
            download_updates_trace "" "main" false
              [RemoteItem.rfile "main/a.py" "A"] "v1.2")) :=
  ⟨by
    rw [show download_all_files "" "main" [RemoteItem.rfile "main/a.py" "A"] =
      [DlOp.writeFile (stagingPath "" "main" "main/a.py") "A"] from by
        simp [download_all_files]]
    decide,
    (c1_marker_write_last "" "main" false [RemoteItem.rfile "main/a.py" "A"]
      "v1.2").1,
    (c1_marker_write_last "" "main" false [RemoteItem.rfile "main/a.py" "A"]
      "v1.2").2 (by
        rw [show download_all_files "" "main"
            [RemoteItem.rfile "main/a.py" "A"] =
          [DlOp.writeFile (stagingPath "" "main" "main/a.py") "A"] from by
            simp [download_all_files]]
        decide)⟩

/-- Counterexample to C1 as stated: when the remote tree itself contains
a file `main/.version`, its download writes the staging marker path
early; the trace prefix of length 2 contains a write to
`next/.version`, yet the download of `main/a.py` has not happened. -/
theorem c1_counterexample :
    get_module_and_path "" "next/.version" ∈
        writePaths ((download_updates_trace "" "main" false
          [RemoteItem.rfile "main/.version" "evil",
            RemoteItem.rfile "main/a.py" "A"] "v2").take 2) ∧
      DlOp.writeFile (stagingPath "" "main" "main/a.py") "A" ∈
        download_updates_trace "" "main" false
          [RemoteItem.rfile "main/.version" "evil",
            RemoteItem.rfile "main/a.py" "A"] "v2" ∧
      DlOp.writeFile (stagingPath "" "main" "main/a.py") "A" ∉
        (download_updates_trace "" "main" false
          [RemoteItem.rfile "main/.version" "evil",
            RemoteItem.rfile "main/a.py" "A"] "v2").take 2 := by
  have htr : download_updates_trace "" "main" false
      [RemoteItem.rfile "main/.version" "evil",
        RemoteItem.rfile "main/a.py" "A"] "v2" =
    [DlOp.mkdir (get_module_and_path "" "next"),
      DlOp.writeFile (stagingPath "" "main" "main/.version") "evil",
      DlOp.writeFile (stagingPath "" "main" "main/a.py") "A",
      DlOp.writeFile (get_module_and_path "" "next/.version") "v2"] := by
    simp [download_updates_trace, download_all_files]
  refine ⟨?_, ?_, ?_⟩ <;> rw [htr] <;> decide

end OTA
